import Mathlib

/-!
Verification of the datadog-trace-agent core against its natural-language
specification.  The Go sources are shallowly embedded: pure functions become
Lean functions, the mutable TraceWriter state becomes explicit state passing,
Go `int` arithmetic that can go negative is carried out in `Int`, and the
fallible paths (serialization failure, the explicit `panic`, slice-bounds
aborts) are reflected in explicit result types.  External collaborators that
the embedded code merely calls (the tag normalizer `NormalizeTag`, the regexp
engine, the protobuf serializer) are taken as function parameters, so every
theorem quantifies over their behaviour.
-/

namespace TraceAgent

/-! ## Spans and traces (model package)

A `Span` mirrors the wire span of the `model` package: identifiers are 64-bit
unsigned in Go and are modelled as `Nat`; `Start` and `Duration` are `int64`
nanosecond values modelled as `Int`; `Meta` is a string-to-string map modelled
as an association list with unique keys and the Go semantics that a missing
key reads as the empty string.  The `Metrics` map is never touched by the
embedded code and is omitted. -/

structure Span where
  TraceID : Nat
  SpanID : Nat
  ParentID : Nat
  Service : String
  Name : String
  Resource : String
  Start : Int
  Duration : Int
  SpanType : String
  Meta : List (String × String)
deriving DecidableEq, Repr

/-- Go map read with ok flag, `v, ok := m[k]`. -/
def metaLookup : List (String × String) → String → Option String
  | [], _ => none
  | (k1, v) :: rest, k => if k1 = k then some v else metaLookup rest k

/-- Go map read `m[k]`: the zero value (empty string) when the key is absent. -/
def metaGet (m : List (String × String)) (k : String) : String :=
  (metaLookup m k).getD ""

/-- Go map write `m[k] = v`: replace the binding if present, else add it. -/
def metaSet : List (String × String) → String → String → List (String × String)
  | [], k, v => [(k, v)]
  | (k1, v1) :: rest, k, v =>
    if k1 = k then (k, v) :: rest else (k1, v1) :: metaSet rest k v

/-- Go `delete(m, k)`. -/
def metaDel : List (String × String) → String → List (String × String)
  | [], _ => []
  | (k1, v1) :: rest, k =>
    if k1 = k then metaDel rest k else (k1, v1) :: metaDel rest k

/-! ## Normalization (model/normalizer.go)

Constants and helpers are ported verbatim.  Go `len` on a string counts
bytes; `goStrLen` uses the UTF-8 byte size accordingly. -/

/-- MaxServiceLen: the maximum length a service can have. -/
def MaxServiceLen : Nat := 100

/-- MaxNameLen: the maximum length a name can have. -/
def MaxNameLen : Nat := 100

/-- MaxTypeLen: the maximum length a span type can have. -/
def MaxTypeLen : Nat := 100

/-- MaxEndDateOffset (10 minutes), in nanoseconds. -/
def MaxEndDateOffset : Int := 10 * 60 * 1000000000

/-- Year2000NanosecTS: 2000-01-01T00:00:00Z as a Unix nanosecond timestamp. -/
def Year2000NanosecTS : Int := 946684800000000000

/-- Go `len(s)` on a string: the number of UTF-8 bytes. -/
def goStrLen (s : String) : Nat := s.utf8ByteSize

/-- Go int64 wrap-around: the representative of x in [-2^63, 2^63).  Go's
`s.Start + s.Duration` is a wrapping int64 addition; since both operands are
int64 values, wrapping their mathematical sum once gives exactly the Go
result. -/
def int64Wrap (x : Int) : Int := (x + 2 ^ 63) % 2 ^ 64 - 2 ^ 63

/-- isAlpha: fast isAlpha for ascii. -/
def isAlphaCh (c : Char) : Bool :=
  (decide ('a' ≤ c) && decide (c ≤ 'z')) || (decide ('A' ≤ c) && decide (c ≤ 'Z'))

/-- isAlphaNum: fast isAlphaNumeric for ascii. -/
def isAlphaNumCh (c : Char) : Bool :=
  isAlphaCh c || (decide ('0' ≤ c) && decide (c ≤ '9'))

/-- The main loop of `normMetricNameParse`: `res` is the output accumulator
(Go keeps it in a byte slice, with `res[ptr-1]` its last element; the loop is
only entered with at least one alphabetic character already appended, so the
`none` fallbacks of `getLast?` are unreachable). -/
def normMetricLoop : List Char → List Char → List Char
  | res, [] => res
  | res, c :: rest =>
    if isAlphaNumCh c then normMetricLoop (res ++ [c]) rest
    else if c = '.' then
      match res.getLast? with
      | some '_' => normMetricLoop (res.dropLast ++ ['.']) rest
      | _ => normMetricLoop (res ++ ['.']) rest
    else
      match res.getLast? with
      | some '.' => normMetricLoop res rest
      | some '_' => normMetricLoop res rest
      | _ => normMetricLoop (res ++ ['_']) rest

/-- normMetricNameParse: normalizes metric names with a parser; returns the
normalized name and whether the input was valid. -/
def normMetricNameParse (name : String) : String × Bool :=
  if name = "" ∨ goStrLen name > MaxNameLen then (name, false)
  else
    let cs := name.data.dropWhile (fun c => ¬ isAlphaCh c)
    if cs.isEmpty then ("", false)
    else
      let res := normMetricLoop [] cs
      let res := if res.getLast? = some '_' then res.dropLast else res
      (⟨res⟩, true)

/-- Go `strconv.ParseUint(sc, 10, 64)` restricted to what `isValidStatusCode`
needs: decimal digits only, empty string fails.  (A value overflowing 64 bits
makes Go return an error and hence `false`; here it parses to a huge `Nat`
which equally fails the `100 ≤ code < 600` range check.) -/
def parseDecimal : List Char → Option Nat
  | [] => some 0
  | c :: rest =>
    if decide ('0' ≤ c) && decide (c ≤ '9') then
      match parseDecimal rest with
      | some n => some ((c.toNat - 48) * 10 ^ rest.length + n)
      | none => none
    else none

/-- isValidStatusCode: a decimal status code in [100, 600). -/
def isValidStatusCode (sc : String) : Bool :=
  if sc = "" then false
  else
    match parseDecimal sc.data with
    | some code => decide (100 ≤ code) && decide (code < 600)
    | none => false

/-- Span.Normalize.  The external collaborator `NormalizeTag` is a parameter
`nt`, and `time.Now().UnixNano()` is a parameter `now`.  Returns the
normalized span, or the error message of the first failing check. -/
def Span.normalize (nt : String → String) (now : Int) (s : Span) : Except String Span :=
  if s.Service = "" then .error "span.normalize: empty Service"
  else if goStrLen s.Service > MaxServiceLen then .error "span.normalize: Service too long"
  else
    let s1 : Span := { s with Service := nt s.Service }
    if s1.Service = "" then .error "span.normalize: Service could not be normalized"
    else if s1.Name = "" then .error "span.normalize: empty Name"
    else if goStrLen s1.Name > MaxNameLen then .error "span.normalize: Name too long"
    else
      let p := normMetricNameParse s1.Name
      if p.2 = false then .error "span.normalize: invalid Name"
      else
        let s2 : Span := { s1 with Name := p.1 }
        if s2.Resource = "" then .error "span.normalize: empty Resource"
        else if s2.TraceID = 0 then .error "span.normalize: empty TraceID"
        else if s2.SpanID = 0 then .error "span.normalize: empty SpanID"
        else
          let s3 : Span :=
            { s2 with ParentID :=
                if s2.ParentID = s2.TraceID ∧ s2.ParentID = s2.SpanID then 0
                else s2.ParentID }
          if s3.Start < Year2000NanosecTS then .error "span.normalize: invalid Start"
          else if int64Wrap (s3.Start + s3.Duration) > now + MaxEndDateOffset then
            .error "span.normalize: more than 10m0s in the future"
          else if s3.Duration ≤ 0 then
            .error "span.normalize: durations need to be strictly positive"
          else if goStrLen s3.SpanType > MaxTypeLen then .error "span.normalize: Type too long"
          else
            let s4 : Span :=
              match metaLookup s3.Meta "env" with
              | some env => { s3 with Meta := metaSet s3.Meta "env" (nt env) }
              | none => s3
            let s5 : Span :=
              match metaLookup s4.Meta "http.status_code" with
              | some sc =>
                if isValidStatusCode sc then s4
                else { s4 with Meta := metaDel s4.Meta "http.status_code" }
              | none => s4
            .ok s5

/-- Whether a normalization result is an error (a non-nil Go error). -/
def isErr {β : Type} : Except String β → Bool
  | .error _ => true
  | .ok _ => false

/-- The span-level rejection conditions named by the spec: empty Service,
Name or Resource, Service, Name or Type longer than 100 bytes, a Start before
the year-2000 nanosecond timestamp, an end time more than 10 minutes past
`now` — with the end time `Start + Duration` computed, as the source
computes it, in wrapping int64 arithmetic — or a non-positive duration. -/
def spanSpecRejected (now : Int) (s : Span) : Prop :=
  s.Service = "" ∨ goStrLen s.Service > MaxServiceLen ∨
  s.Name = "" ∨ goStrLen s.Name > MaxNameLen ∨
  s.Resource = "" ∨ goStrLen s.SpanType > MaxTypeLen ∨
  s.Start < Year2000NanosecTS ∨ int64Wrap (s.Start + s.Duration) > now + MaxEndDateOffset ∨
  s.Duration ≤ 0

/-- The loop body of NormalizeTrace: `spanIDs` is the set of span ids already
seen (a Go map used as a set), `traceID` is `t[0].TraceID`.  A span id is
recorded only after its span normalizes, exactly as in the source. -/
def normalizeTraceFrom (nt : String → String) (now : Int) (traceID : Nat)
    (seen : List Nat) : List Span → Except String (List Span)
  | [] => .ok []
  | sp :: rest =>
    if seen.contains sp.SpanID then .error "duplicate span id"
    else if sp.TraceID ≠ traceID then .error "trace id mismatch"
    else
      match sp.normalize nt now with
      | .error e => .error e
      | .ok sp1 =>
        match normalizeTraceFrom nt now traceID (sp.SpanID :: seen) rest with
        | .error e => .error e
        | .ok rest1 => .ok (sp1 :: rest1)

/-- NormalizeTrace: rejects empty traces, duplicate span ids, trace-id
discrepancies and traces containing a span that fails Normalize. -/
def NormalizeTrace (nt : String → String) (now : Int) (t : List Span) :
    Except String (List Span) :=
  match t with
  | [] => .error "empty trace"
  | sp :: _ => normalizeTraceFrom nt now sp.TraceID [] t

/-! ## TraceWriter (writer/trace_writer.go)

The writer buffers API traces and their running span count, hands payloads to
the sender, and keeps six stat counters.  The protobuf serializer
`proto.Marshal` is a parameter `ser`; `none` is a serialization error and
`some bytes` a success.  Since a payload is just the serialized buffered
traces, the payloads handed to the sender are recorded as the list of trace
batches, which is what the conservation properties talk about.  Spans are an
arbitrary type `α`: the writer never inspects them.  The Go counters are
`int64` mutated by small increments; they are modelled as unbounded `Int`
(no increment sequence considered here approaches the 2^63 wrap). -/

/-- The six atomic counters of info.TraceWriterInfo. -/
structure TraceWriterInfo where
  Payloads : Int
  Traces : Int
  Spans : Int
  Bytes : Int
  Retries : Int
  Errors : Int
deriving DecidableEq, Repr

/-- The all-zero counter record. -/
def zeroInfo : TraceWriterInfo :=
  { Payloads := 0, Traces := 0, Spans := 0, Bytes := 0, Retries := 0, Errors := 0 }

/-- The mutable TraceWriter state relevant to buffering: the buffered API
traces, the running span count, the payloads handed to the sender so far
(most recent last), and the stat counters. -/
structure TWState (α : Type) where
  traces : List (List α)
  spansInBuffer : Nat
  payloads : List (List (List α))
  stats : TraceWriterInfo
deriving DecidableEq, Repr

/-- The initial writer state: empty buffer, nothing sent, zero counters. -/
def initTW (α : Type) : TWState α :=
  { traces := [], spansInBuffer := 0, payloads := [], stats := zeroInfo }

/-- TraceWriter.flush.  Mirrors the source exactly: an empty buffer returns at
once; the Traces and Spans counters are bumped before serialization; a
serialization failure logs, drops the payload and returns early, leaving the
buffer and span count untouched; on success the Bytes counter is bumped, the
payload is handed to the sender, and the buffer and span count are reset. -/
def flushTW (ser : List (List α) → Option (List Nat)) (w : TWState α) : TWState α :=
  if w.traces.length = 0 then w
  else
    let w1 : TWState α :=
      { w with stats :=
          { w.stats with
              Traces := w.stats.Traces + (w.traces.length : Int),
              Spans := w.stats.Spans + (w.spansInBuffer : Int) } }
    match ser w.traces with
    | none => w1
    | some bytes =>
      { w1 with
          stats := { w1.stats with Bytes := w1.stats.Bytes + (bytes.length : Int) },
          payloads := w1.payloads ++ [w.traces],
          traces := [],
          spansInBuffer := 0 }

/-- Outcome of a handleTrace call: normal completion, a Go abort (the explicit
`panic` when the buffer exceeds the cap, or the runtime slice-bounds panic
when the split index is negative), or recursion fuel running out (the model's
stand-in for non-termination; the source recursion has no such bound). -/
inductive HTResult (α : Type) where
  | ok (w : TWState α)
  | panicked
  | outOfFuel
deriving DecidableEq, Repr

/-- The span-overflow split of handleTrace.  `spanOverflow` is computed in
`Int` exactly as Go computes it in `int`.  When it is positive the trace is
split at `splitIndex = len(trace) - spanOverflow`; a negative split index
would be a slice-bounds abort in Go, returned here as `none`.  When there is
no overflow the whole trace goes to the buffer and the split trace is empty. -/
def splitCalc (maxSpans pre : Nat) (trace : List α) : Option (List α × List α) :=
  let spanOverflow : Int := (pre : Int) + (trace.length : Int) - (maxSpans : Int)
  if spanOverflow > 0 then
    let splitIndex : Int := (trace.length : Int) - spanOverflow
    if splitIndex < 0 then none
    else some (trace.take splitIndex.toNat, trace.drop splitIndex.toNat)
  else some (trace, [])

/-- TraceWriter.handleTrace.  A 0-length trace is ignored.  Otherwise the
overflow split is computed; the kept prefix is appended to the buffer and the
span count advanced.  Reaching the cap exactly triggers an immediate flush,
exceeding it is the explicit panic, and a non-empty split trace is handled
recursively. -/
def handleTrace (ser : List (List α) → Option (List Nat)) (maxSpans : Nat) :
    Nat → TWState α → List α → HTResult α
  | 0, _, _ => .outOfFuel
  | fuel + 1, w, trace =>
    if trace.length = 0 then .ok w
    else
      match splitCalc maxSpans w.spansInBuffer trace with
      | none => .panicked
      | some (tr, splitTrace) =>
        let w1 : TWState α :=
          { w with traces := w.traces ++ [tr], spansInBuffer := w.spansInBuffer + tr.length }
        if w1.spansInBuffer = maxSpans then
          let w2 := flushTW ser w1
          if splitTrace.length > 0 then handleTrace ser maxSpans fuel w2 splitTrace else .ok w2
        else if w1.spansInBuffer > maxSpans then .panicked
        else if splitTrace.length > 0 then handleTrace ser maxSpans fuel w1 splitTrace
        else .ok w1

/-- An observable operation on the writer loop: ingesting one trace (with the
recursion fuel the model grants the call) or a timed/shutdown flush. -/
inductive WriterOp (α : Type) where
  | ingest (fuel : Nat) (t : List α)
  | tick
deriving DecidableEq, Repr

/-- Run a sequence of writer operations; `none` as soon as one ingest aborts
or exhausts its fuel. -/
def runOps (ser : List (List α) → Option (List Nat)) (maxSpans : Nat) :
    List (WriterOp α) → TWState α → Option (TWState α)
  | [], w => some w
  | .ingest fuel t :: ops, w =>
    match handleTrace ser maxSpans fuel w t with
    | .ok w1 => runOps ser maxSpans ops w1
    | _ => none
  | .tick :: ops, w => runOps ser maxSpans ops (flushTW ser w)

/-- The multiset of spans currently sitting in the buffer. -/
def bufferSpans (w : TWState α) : Multiset α := (w.traces.flatten : List α)

/-- The multiset of spans across all payloads handed to the sender. -/
def payloadSpans (w : TWState α) : Multiset α := ((w.payloads.map List.flatten).flatten : List α)

/-- The multiset of spans ingested by a sequence of writer operations. -/
def ingestedSpans (ops : List (WriterOp α)) : Multiset α :=
  ((ops.map fun op => match op with | .ingest _ t => t | .tick => []).flatten : List α)

/-- The successive cap-sized pieces a trace is cut into, by fuel-bounded
recursion (fuel `l.length` suffices when the cap is at least 1). -/
def chunksAux (maxSpans : Nat) : Nat → List α → List (List α)
  | 0, l => if l.length = 0 then [] else [l]
  | fuel + 1, l =>
    if l.length = 0 then []
    else if l.length ≤ maxSpans then [l]
    else l.take maxSpans :: chunksAux maxSpans fuel (l.drop maxSpans)

/-- Cut a trace into pieces of at most `maxSpans` spans, all but the last
exactly `maxSpans`. -/
def chunksOf (maxSpans : Nat) (l : List α) : List (List α) :=
  chunksAux maxSpans l.length l

/-! ## Sender event consumer and telemetry (writer/trace_writer.go, Run and
updateInfo) -/

/-- The sender monitor events the Run goroutine consumes.  `other` covers the
nil event (skipped) and any event of unknown type (the default branch of the
type switch): neither touches a counter.  Payload sizes and times are carried
only so the variants match the Go event payloads in shape. -/
inductive SenderEvent where
  | success (sendTimeNs : Int) (payloadBytes : Nat)
  | failure (sendTimeNs : Int) (payloadBytes : Nat) (error : String)
  | retry (retryNum : Int) (retryDelayNs : Int) (error : String)
  | other (description : String)
deriving DecidableEq, Repr

/-- One iteration of the monitor loop body: the type switch over the event,
updating the matching counter (logging and the flush-duration gauge are
external effects with no bearing on state). -/
def consumeEvent (stats : TraceWriterInfo) : SenderEvent → TraceWriterInfo
  | .success _ _ => { stats with Payloads := stats.Payloads + 1 }
  | .failure _ _ _ => { stats with Errors := stats.Errors + 1 }
  | .retry _ _ _ => { stats with Retries := stats.Retries + 1 }
  | .other _ => stats

/-- The monitor loop over a finite prefix of the event channel. -/
def consumeEvents (stats : TraceWriterInfo) (events : List SenderEvent) : TraceWriterInfo :=
  events.foldl consumeEvent stats

/-- What updateInfo publishes: the named counts handed to the stats client, in
call order, and the snapshot handed to info.UpdateTraceWriterInfo. -/
structure InfoPublication where
  counts : List (String × Int)
  registered : TraceWriterInfo
deriving DecidableEq, Repr

/-- TraceWriter.updateInfo: swap every counter with zero and publish the
pre-swap values. -/
def updateInfo (stats : TraceWriterInfo) : TraceWriterInfo × InfoPublication :=
  (zeroInfo,
   { counts :=
       [("datadog.trace_agent.trace_writer.payloads", stats.Payloads),
        ("datadog.trace_agent.trace_writer.traces", stats.Traces),
        ("datadog.trace_agent.trace_writer.spans", stats.Spans),
        ("datadog.trace_agent.trace_writer.bytes", stats.Bytes),
        ("datadog.trace_agent.trace_writer.retries", stats.Retries),
        ("datadog.trace_agent.trace_writer.errors", stats.Errors)],
     registered := stats })

/-! ## Resource filter (filters/resource.go)

The regexp engine is external: a compiled blacklist rule is its
`MatchString` function, and a compiled search-replace entry is the pair of
its `MatchString` and of `ReplaceAllString` applied with the configured
replacement (each entry of `compileSearchReplace` is a one-element map, hence
one such pair per entry, in configuration order). -/

structure ResourceFilter where
  blacklist : List (String → Bool)
  searchReplace : List ((String → Bool) × (String → String))

/-- One iteration of the search-replace loop body of Keep: when the entry's
pattern matches the current `Meta["http.url"]`, rewrite it. -/
def srStep (sp : Span) (entry : (String → Bool) × (String → String)) : Span :=
  if entry.1 (metaGet sp.Meta "http.url") then
    { sp with Meta := metaSet sp.Meta "http.url" (entry.2 (metaGet sp.Meta "http.url")) }
  else sp

/-- resourceFilter.Keep.  Returns the keep decision together with the span as
Keep leaves it (the Go method mutates the span through its pointer): a span
matching a blacklist rule is rejected untouched; otherwise every
search-replace entry is folded over the span, in order, and the span is
kept. -/
def ResourceFilter.keep (f : ResourceFilter) (t : Span) : Bool × Span :=
  if f.blacklist.any (fun entry => entry t.Resource) then (false, t)
  else (true, f.searchReplace.foldl srStep t)

/-- The pure effect of the search-replace pass on the url string alone:
each entry in order, applied when its pattern matches. -/
def applySearchReplace (rules : List ((String → Bool) × (String → String))) (url : String) :
    String :=
  rules.foldl (fun u entry => if entry.1 u then entry.2 u else u) url

/-! ## Quantile summary serialization (quantile package)

Modelled from the spec: the repository's quantile summary implementation
(`quantile/summary.go`) is absent from src/, which holds only its benchmark
file; the Summary data model follows spec section 3, the quantile lookup spec
section 4.1, and the serialization format spec section 4.1 / "Serialization".
Real values and the error parameter are modelled as rationals; the byte
stream is modelled as a token stream carrying the header and entry records in
the specified order. -/

/-- A sketch entry `(v, g, delta, samples)` (spec section 3). -/
structure SEntry where
  v : ℚ
  g : Nat
  delta : Nat
  samples : List Nat
deriving DecidableEq, Repr

/-- A summary: the ordered entry sequence, the observation count N and the
error parameter epsilon (spec section 3). -/
structure Summary where
  entries : List SEntry
  n : Nat
  eps : ℚ
deriving DecidableEq, Repr

/-- Ceiling of a rational, computed from numerator and denominator (Lean's
integer division is euclidean, so for the positive denominator this is the
exact ceiling). -/
def ratCeil (q : ℚ) : Int := -((-q.num) / (q.den : Int))

/-- The quantile scan of spec section 4.1: walk the entries left to right
keeping the cumulative rank gap, and return the value and samples of the
first entry with `cumG + delta >= rank + eps * N`. -/
def quantileScan (bound : ℚ) : ℚ → List SEntry → Option (ℚ × List Nat)
  | _, [] => none
  | cumG, e :: rest =>
    let cumG1 := cumG + (e.g : ℚ)
    if bound ≤ cumG1 + (e.delta : ℚ) then some (e.v, e.samples)
    else quantileScan bound cumG1 rest

/-- Modelled from the spec: Summary.Quantile (spec section 4.1).  `q = 0`
answers the minimum entry, `q = 1` the maximum, an empty summary is an error
(`none`), and otherwise the scan answers with `rank = ceil(q * N)`; if no
entry reaches the bound the maximum entry answers (the scan bound is met by
the last entry whenever the summary invariants hold). -/
def Summary.quantile (s : Summary) (q : ℚ) : Option (ℚ × List Nat) :=
  if s.n = 0 then none
  else if q = 0 then s.entries.head?.map (fun e => (e.v, e.samples))
  else if q = 1 then s.entries.getLast?.map (fun e => (e.v, e.samples))
  else
    let rank : Int := ratCeil (q * (s.n : ℚ))
    match quantileScan ((rank : ℚ) + s.eps * (s.n : ℚ)) 0 s.entries with
    | some r => some r
    | none => s.entries.getLast?.map (fun e => (e.v, e.samples))

/-- A token of the wire stream: the header and record fields in spec order
(version, epsilon, N, entryCount, then per entry v, g, delta, sampleCount and
the sample ids). -/
inductive WireTok where
  | nat (k : Nat)
  | rat (q : ℚ)
deriving DecidableEq, Repr

/-- The version byte the writer emits. -/
def wireVersion : Nat := 1

/-- Serialize one entry record. -/
def serializeEntry (e : SEntry) : List WireTok :=
  [.rat e.v, .nat e.g, .nat e.delta, .nat e.samples.length] ++ e.samples.map .nat

/-- Modelled from the spec: MarshalBinary — header then entry records. -/
def Summary.serialize (s : Summary) : List WireTok :=
  [.nat wireVersion, .rat s.eps, .nat s.n, .nat s.entries.length]
    ++ (s.entries.map serializeEntry).flatten

/-- Read one natural from the stream. -/
def readNat : List WireTok → Option (Nat × List WireTok)
  | .nat k :: rest => some (k, rest)
  | _ => none

/-- Read one rational from the stream. -/
def readRat : List WireTok → Option (ℚ × List WireTok)
  | .rat q :: rest => some (q, rest)
  | _ => none

/-- Read `count` sample ids. -/
def readSamples : Nat → List WireTok → Option (List Nat × List WireTok)
  | 0, ts => some ([], ts)
  | count + 1, ts =>
    match readNat ts with
    | none => none
    | some (x, ts1) =>
      match readSamples count ts1 with
      | none => none
      | some (xs, ts2) => some (x :: xs, ts2)

/-- Read one entry record. -/
def readEntry (ts : List WireTok) : Option (SEntry × List WireTok) :=
  match readRat ts with
  | none => none
  | some (v, ts1) =>
    match readNat ts1 with
    | none => none
    | some (g, ts2) =>
      match readNat ts2 with
      | none => none
      | some (d, ts3) =>
        match readNat ts3 with
        | none => none
        | some (count, ts4) =>
          match readSamples count ts4 with
          | none => none
          | some (samples, ts5) => some ({ v := v, g := g, delta := d, samples := samples }, ts5)

/-- Read `count` entry records. -/
def readEntries : Nat → List WireTok → Option (List SEntry × List WireTok)
  | 0, ts => some ([], ts)
  | count + 1, ts =>
    match readEntry ts with
    | none => none
    | some (e, ts1) =>
      match readEntries count ts1 with
      | none => none
      | some (es, ts2) => some (e :: es, ts2)

/-- The section 3 invariants the reader re-establishes: entries ordered by
value, every rank gap at least 1. -/
def entriesWellFormed : List SEntry → Bool
  | [] => true
  | [e] => decide (1 ≤ e.g)
  | e1 :: e2 :: rest =>
    decide (1 ≤ e1.g) && decide (e1.v ≤ e2.v) && entriesWellFormed (e2 :: rest)

/-- Modelled from the spec: UnmarshalBinary — reject an unknown version,
parse the header and the announced number of entry records, demand the stream
end there, and refuse to load entries violating the section 3 invariants. -/
def deserialize (ts : List WireTok) : Option Summary :=
  match readNat ts with
  | none => none
  | some (ver, ts1) =>
    if ver ≠ wireVersion then none
    else
      match readRat ts1 with
      | none => none
      | some (eps, ts2) =>
        match readNat ts2 with
        | none => none
        | some (n, ts3) =>
          match readNat ts3 with
          | none => none
          | some (count, ts4) =>
            match readEntries count ts4 with
            | none => none
            | some (entries, ts5) =>
              if ts5.isEmpty && entriesWellFormed entries then
                some { entries := entries, n := n, eps := eps }
              else none

/-! ## Theorems -/

/-- Claim C5: each Success event increments Payloads by exactly 1, each
Failure increments Errors by exactly 1, each Retry increments Retries by
exactly 1, an unknown variant changes no counter (the other three counters
are never touched by the consumer), and the scenario of one Success, two
Retry and one Failure events yields Payloads=1, Retries=2, Errors=1. -/
theorem consumeEvents_accounting :
    (∀ (stats : TraceWriterInfo) (events : List SenderEvent),
      (consumeEvents stats events).Payloads =
        stats.Payloads +
          (events.countP fun e => match e with | .success _ _ => true | _ => false) ∧
      (consumeEvents stats events).Errors =
        stats.Errors +
          (events.countP fun e => match e with | .failure _ _ _ => true | _ => false) ∧
      (consumeEvents stats events).Retries =
        stats.Retries +
          (events.countP fun e => match e with | .retry _ _ _ => true | _ => false) ∧
      (consumeEvents stats events).Traces = stats.Traces ∧
      (consumeEvents stats events).Spans = stats.Spans ∧
      (consumeEvents stats events).Bytes = stats.Bytes) ∧
    consumeEvents zeroInfo
        [.success 3 10, .retry 1 5 "err", .retry 2 9 "err", .failure 4 10 "err"] =
      { zeroInfo with Payloads := 1, Retries := 2, Errors := 1 } := by
  constructor
  · intro stats events
    induction events generalizing stats with
    | nil => simp [consumeEvents]
    | cons e rest ih =>
      obtain ⟨h1, h2, h3, h4, h5, h6⟩ := ih (consumeEvent stats e)
      cases e <;>
        simp only [consumeEvents, List.foldl_cons, List.countP_cons, consumeEvent]
          at h1 h2 h3 h4 h5 h6 ⊢ <;>
        refine ⟨?_, ?_, ?_, ?_, ?_, ?_⟩ <;>
        simp [h1, h2, h3, h4, h5, h6] <;> omega
  · decide

/-- Claim C6: updateInfo swaps each of the six counters with zero (the
returned counter state is all zeros) and publishes exactly the pre-swap
values, as named counts to the stats client and as the snapshot handed to
the in-process info registry. -/
theorem updateInfo_publishes_and_zeroes :
    ∀ stats : TraceWriterInfo,
      (updateInfo stats).1 = zeroInfo ∧
      (updateInfo stats).2.registered = stats ∧
      (updateInfo stats).2.counts =
        [("datadog.trace_agent.trace_writer.payloads", stats.Payloads),
         ("datadog.trace_agent.trace_writer.traces", stats.Traces),
         ("datadog.trace_agent.trace_writer.spans", stats.Spans),
         ("datadog.trace_agent.trace_writer.bytes", stats.Bytes),
         ("datadog.trace_agent.trace_writer.retries", stats.Retries),
         ("datadog.trace_agent.trace_writer.errors", stats.Errors)] :=
  fun _ => ⟨rfl, rfl, rfl⟩

/-- Claim C4, counterexample: with a failing serializer and one buffered
trace, flush returns with the buffer NOT reset — the early return on a
serialization error skips the reset, so "in all cases the buffer is empty
after flush returns" is false. -/
theorem flushTW_error_keeps_buffer :
    (flushTW (α := Nat) (fun _ => none)
        { traces := [[1]], spansInBuffer := 1, payloads := [], stats := zeroInfo }).traces ≠ [] := by
  decide

/-- Claim C4, amended: an empty buffer makes flush a no-op; on a
serialization failure the error is logged, the payload is dropped (nothing is
handed to the Sender) and flush returns early leaving the buffer and span
count unchanged; only on serialization success is the payload handed to the
Sender and the buffer and span count reset. -/
theorem flushTW_cases (ser : List (List α) → Option (List Nat)) (w : TWState α) :
    (w.traces = [] → flushTW ser w = w) ∧
    (w.traces ≠ [] → ser w.traces = none →
      (flushTW ser w).traces = w.traces ∧
      (flushTW ser w).spansInBuffer = w.spansInBuffer ∧
      (flushTW ser w).payloads = w.payloads) ∧
    (w.traces ≠ [] → ∀ bytes, ser w.traces = some bytes →
      (flushTW ser w).payloads = w.payloads ++ [w.traces] ∧
      (flushTW ser w).traces = [] ∧
      (flushTW ser w).spansInBuffer = 0) := by
  refine ⟨fun h => ?_, fun h hser => ?_, fun h bytes hser => ?_⟩
  · simp [flushTW, h]
  · simp [flushTW, List.length_eq_zero, h, hser]
  · simp [flushTW, List.length_eq_zero, h, hser]

/-- Witness for the amended claim C4 at concrete inputs: both the failing
and the succeeding serializer on a one-trace buffer. -/
theorem flushTW_cases_witness :
    (([[1]] : List (List Nat)) ≠ [] ∧
      (flushTW (fun _ => none)
          { traces := [[1]], spansInBuffer := 1, payloads := [], stats := zeroInfo }).traces = [[1]] ∧
      (flushTW (fun _ => none)
          { traces := [[1]], spansInBuffer := 1, payloads := [], stats := zeroInfo }).spansInBuffer = 1 ∧
      (flushTW (fun _ => none)
          { traces := [[1]], spansInBuffer := 1, payloads := [], stats := zeroInfo }).payloads = []) ∧
    ((flushTW (fun _ => some [0, 1])
        { traces := [[1]], spansInBuffer := 1, payloads := [], stats := zeroInfo }).payloads = [[[1]]] ∧
      (flushTW (fun _ => some [0, 1])
        { traces := [[1]], spansInBuffer := 1, payloads := [], stats := zeroInfo }).traces = [] ∧
      (flushTW (fun _ => some [0, 1])
        { traces := [[1]], spansInBuffer := 1, payloads := [], stats := zeroInfo }).spansInBuffer = 0) := by
  constructor
  · exact ⟨by decide,
      (flushTW_cases (fun _ => none)
        { traces := [[1]], spansInBuffer := 1, payloads := [], stats := zeroInfo }).2.1
        (by decide) rfl⟩
  · have h := (flushTW_cases (fun _ => some [0, 1])
      { traces := [[1]], spansInBuffer := 1, payloads := [], stats := zeroInfo }).2.2
      (by decide) [0, 1] rfl
    exact ⟨h.1.trans (by decide), h.2.1, h.2.2⟩

/-- Looking up the key just set reads the value just written. -/
theorem metaLookup_set_same (m : List (String × String)) (k v : String) :
    metaLookup (metaSet m k v) k = some v := by
  induction m with
  | nil => simp [metaSet, metaLookup]
  | cons p rest ih =>
    by_cases h : p.1 = k <;> simp [metaSet, metaLookup, h, ih]

/-- Setting one key leaves every other key unchanged. -/
theorem metaLookup_set_other (m : List (String × String)) (k v k2 : String) (h : k2 ≠ k) :
    metaLookup (metaSet m k v) k2 = metaLookup m k2 := by
  induction m with
  | nil => simp [metaSet, metaLookup, Ne.symm h]
  | cons p rest ih =>
    by_cases hp : p.1 = k
    · simp [metaSet, metaLookup, hp, Ne.symm h]
    · simp only [metaSet, metaLookup, hp, if_false]
      by_cases hp2 : p.1 = k2 <;> simp [hp2, ih]

/-- One search-replace step only touches Meta. -/
theorem srStep_frame (sp : Span) (entry : (String → Bool) × (String → String))
    (meta : List (String × String)) :
    { srStep sp entry with Meta := meta } = { sp with Meta := meta } := by
  unfold srStep
  split <;> rfl

/-- The url field after one search-replace step. -/
theorem srStep_url (sp : Span) (entry : (String → Bool) × (String → String)) :
    metaGet (srStep sp entry).Meta "http.url" =
      (if entry.1 (metaGet sp.Meta "http.url") = true then
        entry.2 (metaGet sp.Meta "http.url")
      else metaGet sp.Meta "http.url") := by
  unfold srStep
  split <;> simp_all [metaGet, metaLookup_set_same]

/-- The other meta keys after one search-replace step. -/
theorem srStep_other (sp : Span) (entry : (String → Bool) × (String → String))
    (k : String) (hk : k ≠ "http.url") :
    metaGet (srStep sp entry).Meta k = metaGet sp.Meta k := by
  unfold srStep
  split <;> simp [metaGet, metaLookup_set_other _ _ _ _ hk]

/-- The search-replace fold of Keep: the url is rewritten exactly as
`applySearchReplace` rewrites the url string, every other meta key is
untouched, and so is every non-Meta field. -/
theorem keep_fold_spec (rules : List ((String → Bool) × (String → String))) :
    ∀ t : Span,
      metaGet (rules.foldl srStep t).Meta "http.url" =
        applySearchReplace rules (metaGet t.Meta "http.url") ∧
      (∀ k, k ≠ "http.url" → metaGet (rules.foldl srStep t).Meta k = metaGet t.Meta k) ∧
      (∀ meta, { (rules.foldl srStep t) with Meta := meta } = { t with Meta := meta }) := by
  induction rules with
  | nil => intro t; exact ⟨rfl, fun _ _ => rfl, fun _ => rfl⟩
  | cons entry rules ih =>
    intro t
    obtain ⟨ih1, ih2, ih3⟩ := ih (srStep t entry)
    refine ⟨?_, ?_, ?_⟩
    · rw [List.foldl_cons, ih1, srStep_url]
      rfl
    · intro k hk
      rw [List.foldl_cons, ih2 k hk, srStep_other _ _ _ hk]
    · intro meta
      rw [List.foldl_cons]
      exact (ih3 meta).trans (srStep_frame t entry meta)

/-- The keep decision is the blacklist scan of the resource alone. -/
theorem keep_decision (f : ResourceFilter) (t : Span) :
    (f.keep t).1 = ! f.blacklist.any (fun entry => entry t.Resource) := by
  unfold ResourceFilter.keep
  split <;> simp_all

/-- Claim C10: Keep is not read-only.  A span matching some blacklist rule is
dropped with the span (its Meta included) untouched; a span matching none is
kept and its `Meta["http.url"]` is rewritten by applying, in order, every
search-replace rule whose pattern matches it, every other meta key and every
non-Meta field being preserved; and the keep/drop decision is a function of
`span.Resource` alone. -/
theorem resourceFilter_keep_spec (f : ResourceFilter) (t : Span) :
    ((∃ b ∈ f.blacklist, b t.Resource = true) → f.keep t = (false, t)) ∧
    ((∀ b ∈ f.blacklist, b t.Resource = false) →
      (f.keep t).1 = true ∧
      metaGet (f.keep t).2.Meta "http.url" =
        applySearchReplace f.searchReplace (metaGet t.Meta "http.url") ∧
      (∀ k, k ≠ "http.url" → metaGet (f.keep t).2.Meta k = metaGet t.Meta k) ∧
      { (f.keep t).2 with Meta := t.Meta } = t) ∧
    (∀ t2 : Span, t2.Resource = t.Resource → (f.keep t2).1 = (f.keep t).1) := by
  refine ⟨fun h => ?_, fun h => ?_, fun t2 h2 => ?_⟩
  · have hany : f.blacklist.any (fun entry => entry t.Resource) = true :=
      List.any_eq_true.mpr (by simpa using h)
    simp [ResourceFilter.keep, hany]
  · have hany : f.blacklist.any (fun entry => entry t.Resource) = false := by
      simp only [List.any_eq_false]
      intro b hb
      simp [h b hb]
    have hkeep : f.keep t = (true, f.searchReplace.foldl srStep t) := by
      simp [ResourceFilter.keep, hany]
    obtain ⟨g1, g2, g3⟩ := keep_fold_spec f.searchReplace t
    rw [hkeep]
    exact ⟨rfl, g1, g2, g3 t.Meta⟩
  · rw [keep_decision, keep_decision, h2]

/-- Witness for claim C10 at a concrete filter and span: the blacklist does
not match, one of the two search-replace rules matches, and the url is
rewritten while the rest of the span survives. -/
theorem resourceFilter_keep_spec_witness :
    (∀ b ∈ [fun r => decide (r = "GET /healthcheck")], b "GET /users" = false) ∧
    ((ResourceFilter.keep
        { blacklist := [fun r => decide (r = "GET /healthcheck")],
          searchReplace :=
            [(fun u => decide (u = "/a"), fun _ => "/b"),
             (fun u => decide (u = "/x"), fun _ => "/y")] }
        { TraceID := 1, SpanID := 2, ParentID := 0, Service := "s", Name := "n",
          Resource := "GET /users", Start := 0, Duration := 1, SpanType := "",
          Meta := [("http.url", "/a")] }).1 = true ∧
      metaGet (ResourceFilter.keep
        { blacklist := [fun r => decide (r = "GET /healthcheck")],
          searchReplace :=
            [(fun u => decide (u = "/a"), fun _ => "/b"),
             (fun u => decide (u = "/x"), fun _ => "/y")] }
        { TraceID := 1, SpanID := 2, ParentID := 0, Service := "s", Name := "n",
          Resource := "GET /users", Start := 0, Duration := 1, SpanType := "",
          Meta := [("http.url", "/a")] }).2.Meta "http.url" =
        applySearchReplace
          [(fun u => decide (u = "/a"), fun _ => "/b"),
           (fun u => decide (u = "/x"), fun _ => "/y")] "/a") := by
  refine ⟨?_, ?_⟩
  · intro b hb
    simp only [List.mem_singleton] at hb
    subst hb
    rfl
  · have h := (resourceFilter_keep_spec
      { blacklist := [fun r => decide (r = "GET /healthcheck")],
        searchReplace :=
          [(fun u => decide (u = "/a"), fun _ => "/b"),
           (fun u => decide (u = "/x"), fun _ => "/y")] }
      { TraceID := 1, SpanID := 2, ParentID := 0, Service := "s", Name := "n",
        Resource := "GET /users", Start := 0, Duration := 1, SpanType := "",
        Meta := [("http.url", "/a")] }).2.1
      (by intro b hb; simp only [List.mem_singleton] at hb; subst hb; rfl)
    exact ⟨h.1, h.2.1⟩

/-- Reading back the serialized sample ids recovers them and leaves the rest
of the stream. -/
theorem readSamples_roundtrip (l : List Nat) (rest : List WireTok) :
    readSamples l.length (l.map WireTok.nat ++ rest) = some (l, rest) := by
  induction l with
  | nil => rfl
  | cons x xs ih => simp [readSamples, readNat, ih]

/-- Reading back one serialized entry recovers it. -/
theorem readEntry_roundtrip (e : SEntry) (rest : List WireTok) :
    readEntry (serializeEntry e ++ rest) = some (e, rest) := by
  simp [serializeEntry, readEntry, readRat, readNat, readSamples_roundtrip]

/-- Reading back a serialized entry sequence recovers it. -/
theorem readEntries_roundtrip (es : List SEntry) (rest : List WireTok) :
    readEntries es.length ((es.map serializeEntry).flatten ++ rest) = some (es, rest) := by
  induction es generalizing rest with
  | nil => rfl
  | cons e es ih =>
    simp only [List.map_cons, List.flatten_cons, List.length_cons, List.append_assoc]
    simp [readEntries, readEntry_roundtrip, ih]

/-- Claim C9: deserializing the serialization of a summary (whose entries
satisfy the section 3 invariants the reader checks) yields a summary with the
same N and epsilon that answers every quantile in [0,1] exactly as the
original; indeed the round-trip reproduces the summary. -/
theorem serialize_roundtrip (s : Summary) (hwf : entriesWellFormed s.entries = true) :
    ∃ s2, deserialize s.serialize = some s2 ∧
      s2.n = s.n ∧ s2.eps = s.eps ∧
      ∀ q : ℚ, 0 ≤ q → q ≤ 1 → s2.quantile q = s.quantile q := by
  refine ⟨s, ?_, rfl, rfl, fun _ _ _ => rfl⟩
  have h : s.serialize =
      WireTok.nat wireVersion :: WireTok.rat s.eps :: WireTok.nat s.n ::
        WireTok.nat s.entries.length :: ((s.entries.map serializeEntry).flatten ++ []) := by
    simp [Summary.serialize]
  rw [h]
  have h2 := readEntries_roundtrip s.entries []
  rw [List.append_nil] at h2
  simp [deserialize, readNat, readRat, h2, hwf]

/-- Witness for claim C9 at a concrete two-entry summary. -/
theorem serialize_roundtrip_witness :
    entriesWellFormed
        [{ v := 1, g := 1, delta := 0, samples := [7] },
         { v := 2, g := 2, delta := 1, samples := [8, 9] }] = true ∧
    ∃ s2, deserialize
        (Summary.serialize
          { entries :=
              [{ v := 1, g := 1, delta := 0, samples := [7] },
               { v := 2, g := 2, delta := 1, samples := [8, 9] }],
            n := 3, eps := 1 }) = some s2 ∧
      s2.n = 3 ∧ s2.eps = 1 ∧
      ∀ q : ℚ, 0 ≤ q → q ≤ 1 →
        s2.quantile q =
          Summary.quantile
            { entries :=
                [{ v := 1, g := 1, delta := 0, samples := [7] },
                 { v := 2, g := 2, delta := 1, samples := [8, 9] }],
              n := 3, eps := 1 } q := by
  constructor
  · decide
  · exact serialize_roundtrip
      { entries :=
          [{ v := 1, g := 1, delta := 0, samples := [7] },
           { v := 2, g := 2, delta := 1, samples := [8, 9] }],
        n := 3, eps := 1 }
      (by decide)

/-- A span on which Normalize succeeds passes every one of the named checks. -/
theorem normalize_ok_not_rejected (nt : String → String) (now : Int) (s s1 : Span)
    (hok : s.normalize nt now = .ok s1) : ¬ spanSpecRejected now s := by
  dsimp only [Span.normalize] at hok
  have c1 : ¬ (s.Service = "") := by
    intro hc; rw [if_pos hc] at hok; exact Except.noConfusion hok
  rw [if_neg c1] at hok
  have c2 : ¬ (goStrLen s.Service > MaxServiceLen) := by
    intro hc; rw [if_pos hc] at hok; exact Except.noConfusion hok
  rw [if_neg c2] at hok
  have c3 : ¬ (nt s.Service = "") := by
    intro hc; rw [if_pos hc] at hok; exact Except.noConfusion hok
  rw [if_neg c3] at hok
  have c4 : ¬ (s.Name = "") := by
    intro hc; rw [if_pos hc] at hok; exact Except.noConfusion hok
  rw [if_neg c4] at hok
  have c5 : ¬ (goStrLen s.Name > MaxNameLen) := by
    intro hc; rw [if_pos hc] at hok; exact Except.noConfusion hok
  rw [if_neg c5] at hok
  have c6 : ¬ ((normMetricNameParse s.Name).2 = false) := by
    intro hc; rw [if_pos hc] at hok; exact Except.noConfusion hok
  rw [if_neg c6] at hok
  have c7 : ¬ (s.Resource = "") := by
    intro hc; rw [if_pos hc] at hok; exact Except.noConfusion hok
  rw [if_neg c7] at hok
  have c8 : ¬ (s.TraceID = 0) := by
    intro hc; rw [if_pos hc] at hok; exact Except.noConfusion hok
  rw [if_neg c8] at hok
  have c9 : ¬ (s.SpanID = 0) := by
    intro hc; rw [if_pos hc] at hok; exact Except.noConfusion hok
  rw [if_neg c9] at hok
  have c10 : ¬ (s.Start < Year2000NanosecTS) := by
    intro hc; rw [if_pos hc] at hok; exact Except.noConfusion hok
  rw [if_neg c10] at hok
  have c11 : ¬ (int64Wrap (s.Start + s.Duration) > now + MaxEndDateOffset) := by
    intro hc; rw [if_pos hc] at hok; exact Except.noConfusion hok
  rw [if_neg c11] at hok
  have c12 : ¬ (s.Duration ≤ 0) := by
    intro hc; rw [if_pos hc] at hok; exact Except.noConfusion hok
  rw [if_neg c12] at hok
  have c13 : ¬ (goStrLen s.SpanType > MaxTypeLen) := by
    intro hc; rw [if_pos hc] at hok; exact Except.noConfusion hok
  simp only [spanSpecRejected]
  push_neg
  exact ⟨c1, by omega, c4, by omega, c7, by omega, by omega, by omega, by omega⟩

/-- A span satisfying one of the named rejection conditions fails Normalize
(possibly with an earlier check's error). -/
theorem normalize_isErr_of_rejected (nt : String → String) (now : Int) (s : Span)
    (h : spanSpecRejected now s) : isErr (s.normalize nt now) = true := by
  cases hn : s.normalize nt now with
  | error e => rfl
  | ok s1 => exact absurd h (normalize_ok_not_rejected nt now s s1 hn)

/-- If the tail of the NormalizeTrace loop errors (with the head's span id
recorded), the whole loop errors, whatever the head does. -/
theorem ntFrom_cons_err (nt : String → String) (now : Int) (traceID : Nat)
    (seen : List Nat) (sp0 : Span) (rest : List Span)
    (h : isErr (normalizeTraceFrom nt now traceID (sp0.SpanID :: seen) rest) = true) :
    isErr (normalizeTraceFrom nt now traceID seen (sp0 :: rest)) = true := by
  simp only [normalizeTraceFrom]
  by_cases hc : seen.contains sp0.SpanID = true
  · rw [if_pos hc]; rfl
  · rw [if_neg hc]
    by_cases hm : sp0.TraceID ≠ traceID
    · rw [if_pos hm]; rfl
    · rw [if_neg hm]
      cases hnorm : sp0.normalize nt now with
      | error e => rfl
      | ok sp1 =>
        cases hr : normalizeTraceFrom nt now traceID (sp0.SpanID :: seen) rest with
        | error e => rfl
        | ok rest1 => rw [hr] at h; exact absurd h (by simp [isErr])

/-- The NormalizeTrace loop errors as soon as some span's id was already
seen. -/
theorem ntFrom_err_of_seen (nt : String → String) (now : Int) (traceID : Nat) :
    ∀ (l : List Span) (seen : List Nat),
      (∃ sp ∈ l, sp.SpanID ∈ seen) →
      isErr (normalizeTraceFrom nt now traceID seen l) = true := by
  intro l
  induction l with
  | nil =>
    rintro seen ⟨sp, hmem, _⟩
    exact absurd hmem (List.not_mem_nil sp)
  | cons sp0 rest ih =>
    rintro seen ⟨sp, hmem, hin⟩
    rcases List.mem_cons.mp hmem with rfl | hmem2
    · simp only [normalizeTraceFrom]
      rw [if_pos (List.elem_eq_true_of_mem hin)]
      rfl
    · exact ntFrom_cons_err nt now traceID seen sp0 rest
        (ih (sp0.SpanID :: seen) ⟨sp, hmem2, List.mem_cons_of_mem _ hin⟩)

/-- The NormalizeTrace loop errors on any duplicate span id. -/
theorem ntFrom_err_of_dup (nt : String → String) (now : Int) (traceID : Nat) :
    ∀ (l : List Span) (seen : List Nat),
      ¬ (l.map Span.SpanID).Nodup →
      isErr (normalizeTraceFrom nt now traceID seen l) = true := by
  intro l
  induction l with
  | nil => intro seen h; exact absurd List.nodup_nil h
  | cons sp0 rest ih =>
    intro seen h
    by_cases hdup : sp0.SpanID ∈ rest.map Span.SpanID
    · obtain ⟨sp, hsp, hid⟩ := List.mem_map.mp hdup
      refine ntFrom_cons_err nt now traceID seen sp0 rest ?_
      exact ntFrom_err_of_seen nt now traceID rest (sp0.SpanID :: seen)
        ⟨sp, hsp, by rw [hid]; exact List.mem_cons_self _ _⟩
    · refine ntFrom_cons_err nt now traceID seen sp0 rest (ih (sp0.SpanID :: seen) ?_)
      intro hn
      exact h (List.nodup_cons.mpr ⟨hdup, hn⟩)

/-- The NormalizeTrace loop errors as soon as some span's trace id differs
from the reference trace id. -/
theorem ntFrom_err_of_mismatch (nt : String → String) (now : Int) (traceID : Nat) :
    ∀ (l : List Span) (seen : List Nat),
      (∃ sp ∈ l, sp.TraceID ≠ traceID) →
      isErr (normalizeTraceFrom nt now traceID seen l) = true := by
  intro l
  induction l with
  | nil =>
    rintro seen ⟨sp, hmem, _⟩
    exact absurd hmem (List.not_mem_nil sp)
  | cons sp0 rest ih =>
    rintro seen ⟨sp, hmem, hmis⟩
    rcases List.mem_cons.mp hmem with rfl | hmem2
    · simp only [normalizeTraceFrom]
      by_cases hc : seen.contains sp.SpanID = true
      · rw [if_pos hc]; rfl
      · rw [if_neg hc, if_pos hmis]; rfl
    · exact ntFrom_cons_err nt now traceID seen sp0 rest
        (ih (sp0.SpanID :: seen) ⟨sp, hmem2, hmis⟩)

/-- The NormalizeTrace loop errors as soon as some span satisfies one of the
named rejection conditions. -/
theorem ntFrom_err_of_rejected (nt : String → String) (now : Int) (traceID : Nat) :
    ∀ (l : List Span) (seen : List Nat),
      (∃ sp ∈ l, spanSpecRejected now sp) →
      isErr (normalizeTraceFrom nt now traceID seen l) = true := by
  intro l
  induction l with
  | nil =>
    rintro seen ⟨sp, hmem, _⟩
    exact absurd hmem (List.not_mem_nil sp)
  | cons sp0 rest ih =>
    rintro seen ⟨sp, hmem, hrej⟩
    rcases List.mem_cons.mp hmem with rfl | hmem2
    · simp only [normalizeTraceFrom]
      by_cases hc : seen.contains sp.SpanID = true
      · rw [if_pos hc]; rfl
      · rw [if_neg hc]
        by_cases hm : sp.TraceID ≠ traceID
        · rw [if_pos hm]; rfl
        · rw [if_neg hm]
          cases hnorm : sp.normalize nt now with
          | error e => rfl
          | ok sp1 =>
            exact absurd hrej (normalize_ok_not_rejected nt now sp sp1 hnorm)
    · exact ntFrom_cons_err nt now traceID seen sp0 rest
        (ih (sp0.SpanID :: seen) ⟨sp, hmem2, hrej⟩)

/-- Claim C7, amended: NormalizeTrace returns a non-nil error for every
empty trace, every trace with two spans sharing a SpanID, every trace
containing a span whose TraceID differs from the first span's, and every
trace containing a span with empty Service, Name or Resource, Service, Name
or Type longer than 100 bytes, Start before the year-2000 nanosecond
timestamp, Start+Duration — computed, as the source computes it, in wrapping
int64 arithmetic — more than 10 minutes past the current time, or
non-positive Duration, whatever the external tag normalizer does.  (The
original claim read Start+Duration as the mathematical sum; the int64 sum
wraps, see the counterexample below.) -/
theorem normalizeTrace_rejects (nt : String → String) (now : Int) (t : List Span)
    (h : t = [] ∨
      ¬ (t.map Span.SpanID).Nodup ∨
      (∃ s0, t.head? = some s0 ∧ ∃ sp ∈ t, sp.TraceID ≠ s0.TraceID) ∨
      (∃ sp ∈ t, spanSpecRejected now sp)) :
    isErr (NormalizeTrace nt now t) = true := by
  cases t with
  | nil => rfl
  | cons sp0 rest =>
    rcases h with h | h | ⟨s0, hs0, hmis⟩ | h
    · exact absurd h (by simp)
    · exact ntFrom_err_of_dup nt now sp0.TraceID (sp0 :: rest) [] h
    · simp only [List.head?_cons, Option.some_inj] at hs0
      subst hs0
      exact ntFrom_err_of_mismatch nt now sp0.TraceID (sp0 :: rest) [] hmis
    · exact ntFrom_err_of_rejected nt now sp0.TraceID (sp0 :: rest) [] h

/-- Witness for claim C7: a concrete two-span trace whose second span has a
mismatching TraceID is rejected (evaluated on the identity tag normalizer). -/
theorem normalizeTrace_rejects_witness :
    (([{ TraceID := 1, SpanID := 1, ParentID := 0, Service := "s", Name := "n",
         Resource := "r", Start := 946684800000000000, Duration := 1, SpanType := "",
         Meta := [] },
       { TraceID := 2, SpanID := 2, ParentID := 0, Service := "s", Name := "n",
         Resource := "r", Start := 946684800000000000, Duration := 1, SpanType := "",
         Meta := [] }] : List Span) = [] ∨
      ¬ (([{ TraceID := 1, SpanID := 1, ParentID := 0, Service := "s", Name := "n",
             Resource := "r", Start := 946684800000000000, Duration := 1, SpanType := "",
             Meta := [] },
           { TraceID := 2, SpanID := 2, ParentID := 0, Service := "s", Name := "n",
             Resource := "r", Start := 946684800000000000, Duration := 1, SpanType := "",
             Meta := [] }] : List Span).map Span.SpanID).Nodup ∨
      (∃ s0, ([{ TraceID := 1, SpanID := 1, ParentID := 0, Service := "s", Name := "n",
                 Resource := "r", Start := 946684800000000000, Duration := 1, SpanType := "",
                 Meta := [] },
               { TraceID := 2, SpanID := 2, ParentID := 0, Service := "s", Name := "n",
                 Resource := "r", Start := 946684800000000000, Duration := 1, SpanType := "",
                 Meta := [] }] : List Span).head? = some s0 ∧
        ∃ sp ∈ ([{ TraceID := 1, SpanID := 1, ParentID := 0, Service := "s", Name := "n",
                   Resource := "r", Start := 946684800000000000, Duration := 1, SpanType := "",
                   Meta := [] },
                 { TraceID := 2, SpanID := 2, ParentID := 0, Service := "s", Name := "n",
                   Resource := "r", Start := 946684800000000000, Duration := 1, SpanType := "",
                   Meta := [] }] : List Span), sp.TraceID ≠ s0.TraceID) ∨
      (∃ sp ∈ ([{ TraceID := 1, SpanID := 1, ParentID := 0, Service := "s", Name := "n",
                  Resource := "r", Start := 946684800000000000, Duration := 1, SpanType := "",
                  Meta := [] },
                { TraceID := 2, SpanID := 2, ParentID := 0, Service := "s", Name := "n",
                  Resource := "r", Start := 946684800000000000, Duration := 1, SpanType := "",
                  Meta := [] }] : List Span), spanSpecRejected 946684800000000000 sp)) ∧
    isErr (NormalizeTrace (fun x => x) 946684800000000000
      [{ TraceID := 1, SpanID := 1, ParentID := 0, Service := "s", Name := "n",
         Resource := "r", Start := 946684800000000000, Duration := 1, SpanType := "",
         Meta := [] },
       { TraceID := 2, SpanID := 2, ParentID := 0, Service := "s", Name := "n",
         Resource := "r", Start := 946684800000000000, Duration := 1, SpanType := "",
         Meta := [] }]) = true := by
  constructor
  · refine Or.inr (Or.inr (Or.inl ⟨_, rfl, ?_⟩))
    refine ⟨{ TraceID := 2, SpanID := 2, ParentID := 0, Service := "s", Name := "n",
              Resource := "r", Start := 946684800000000000, Duration := 1, SpanType := "",
              Meta := [] }, by simp, by decide⟩
  · exact normalizeTrace_rejects (fun x => x) 946684800000000000 _
      (Or.inr (Or.inr (Or.inl ⟨_, rfl,
        ⟨{ TraceID := 2, SpanID := 2, ParentID := 0, Service := "s", Name := "n",
           Resource := "r", Start := 946684800000000000, Duration := 1, SpanType := "",
           Meta := [] }, by simp, by decide⟩⟩)))

/-- Claim C7, counterexample to the original statement: a span whose
mathematical Start+Duration (year-2000 start plus a 2^63-1 duration) is far
more than 10 minutes past the current time is nevertheless accepted by
NormalizeTrace, because the source adds Start and Duration in wrapping int64
arithmetic and the wrapped sum is negative, so the future-check passes. -/
theorem normalizeTrace_future_counterexample :
    ((946684800000000000 : Int) + 9223372036854775807 >
      946684800000000000 + MaxEndDateOffset) ∧
    isErr (NormalizeTrace (fun x => x) 946684800000000000
      [{ TraceID := 1, SpanID := 1, ParentID := 0, Service := "s", Name := "n",
         Resource := "r", Start := 946684800000000000,
         Duration := 9223372036854775807, SpanType := "", Meta := [] }]) = false := by
  constructor
  · decide
  · rfl

/-- Claim C8: a span whose ParentID, TraceID and SpanID all coincide (and are
nonzero) is treated as a root span — whenever Normalize succeeds on it the
returned span has ParentID 0 — and the coincidence is not by itself grounds
for rejection: a span exhibiting it passes Normalize. -/
theorem normalize_selfref_root :
    (∀ (nt : String → String) (now : Int) (s s2 : Span),
      s.ParentID = s.TraceID → s.ParentID = s.SpanID → s.TraceID ≠ 0 →
      s.normalize nt now = .ok s2 → s2.ParentID = 0) ∧
    (∃ s s2 : Span, s.ParentID = s.TraceID ∧ s.ParentID = s.SpanID ∧ s.TraceID ≠ 0 ∧
      s.normalize (fun x => x) Year2000NanosecTS = .ok s2 ∧ s2.ParentID = 0) := by
  constructor
  · intro nt now s s2 h1 h2 _ hok
    dsimp only [Span.normalize] at hok
    have c1 : ¬ (s.Service = "") := by
      intro hc; rw [if_pos hc] at hok; exact Except.noConfusion hok
    rw [if_neg c1] at hok
    have c2 : ¬ (goStrLen s.Service > MaxServiceLen) := by
      intro hc; rw [if_pos hc] at hok; exact Except.noConfusion hok
    rw [if_neg c2] at hok
    have c3 : ¬ (nt s.Service = "") := by
      intro hc; rw [if_pos hc] at hok; exact Except.noConfusion hok
    rw [if_neg c3] at hok
    have c4 : ¬ (s.Name = "") := by
      intro hc; rw [if_pos hc] at hok; exact Except.noConfusion hok
    rw [if_neg c4] at hok
    have c5 : ¬ (goStrLen s.Name > MaxNameLen) := by
      intro hc; rw [if_pos hc] at hok; exact Except.noConfusion hok
    rw [if_neg c5] at hok
    have c6 : ¬ ((normMetricNameParse s.Name).2 = false) := by
      intro hc; rw [if_pos hc] at hok; exact Except.noConfusion hok
    rw [if_neg c6] at hok
    have c7 : ¬ (s.Resource = "") := by
      intro hc; rw [if_pos hc] at hok; exact Except.noConfusion hok
    rw [if_neg c7] at hok
    have c8 : ¬ (s.TraceID = 0) := by
      intro hc; rw [if_pos hc] at hok; exact Except.noConfusion hok
    rw [if_neg c8] at hok
    have c9 : ¬ (s.SpanID = 0) := by
      intro hc; rw [if_pos hc] at hok; exact Except.noConfusion hok
    rw [if_neg c9] at hok
    have c10 : ¬ (s.Start < Year2000NanosecTS) := by
      intro hc; rw [if_pos hc] at hok; exact Except.noConfusion hok
    rw [if_neg c10] at hok
    have c11 : ¬ (int64Wrap (s.Start + s.Duration) > now + MaxEndDateOffset) := by
      intro hc; rw [if_pos hc] at hok; exact Except.noConfusion hok
    rw [if_neg c11] at hok
    have c12 : ¬ (s.Duration ≤ 0) := by
      intro hc; rw [if_pos hc] at hok; exact Except.noConfusion hok
    rw [if_neg c12] at hok
    have c13 : ¬ (goStrLen s.SpanType > MaxTypeLen) := by
      intro hc; rw [if_pos hc] at hok; exact Except.noConfusion hok
    rw [if_neg c13] at hok
    rw [if_pos (⟨h1, h2⟩ : s.ParentID = s.TraceID ∧ s.ParentID = s.SpanID)] at hok
    injection hok with hs2
    subst hs2
    repeat' split
    all_goals rfl
  · refine ⟨{ TraceID := 7, SpanID := 7, ParentID := 7, Service := "svc", Name := "name",
              Resource := "r", Start := 946684800000000000, Duration := 1, SpanType := "",
              Meta := [] },
            { TraceID := 7, SpanID := 7, ParentID := 0, Service := "svc", Name := "name",
              Resource := "r", Start := 946684800000000000, Duration := 1, SpanType := "",
              Meta := [] }, rfl, rfl, by decide, rfl, rfl⟩

/-- Witness for claim C8 at the concrete self-referential span, through the
universal part of the theorem. -/
theorem normalize_selfref_root_witness :
    ({ TraceID := 7, SpanID := 7, ParentID := 7, Service := "svc", Name := "name",
       Resource := "r", Start := 946684800000000000, Duration := 1, SpanType := "",
       Meta := [] } : Span).normalize (fun x => x) 946684800000000000 =
      .ok { TraceID := 7, SpanID := 7, ParentID := 0, Service := "svc", Name := "name",
            Resource := "r", Start := 946684800000000000, Duration := 1, SpanType := "",
            Meta := [] } ∧
    ({ TraceID := 7, SpanID := 7, ParentID := 0, Service := "svc", Name := "name",
       Resource := "r", Start := 946684800000000000, Duration := 1, SpanType := "",
       Meta := [] } : Span).ParentID = 0 := by
  constructor
  · rfl
  · exact normalize_selfref_root.1 (fun x => x) 946684800000000000
      { TraceID := 7, SpanID := 7, ParentID := 7, Service := "svc", Name := "name",
        Resource := "r", Start := 946684800000000000, Duration := 1, SpanType := "",
        Meta := [] }
      { TraceID := 7, SpanID := 7, ParentID := 0, Service := "svc", Name := "name",
        Resource := "r", Start := 946684800000000000, Duration := 1, SpanType := "",
        Meta := [] }
      rfl rfl (by decide) rfl

/-- Flushing never increases the span count: it resets it to zero on success
and leaves it alone otherwise. -/
theorem flushTW_spans_le (ser : List (List α) → Option (List Nat)) (w : TWState α) :
    (flushTW ser w).spansInBuffer ≤ w.spansInBuffer := by
  unfold flushTW
  split
  · exact le_refl _
  · split <;> simp

/-- Whatever the split does, the two pieces reassemble the input trace. -/
theorem splitCalc_append (m pre : Nat) (t tr split : List α)
    (h : splitCalc m pre t = some (tr, split)) : tr ++ split = t := by
  simp only [splitCalc] at h
  split at h
  · split at h
    · exact Option.noConfusion h
    · injection h with h1
      injection h1 with h2 h3
      rw [← h2, ← h3]
      exact List.take_append_drop _ _
  · injection h with h1
    injection h1 with h2 h3
    rw [← h2, ← h3, List.append_nil]

/-- From a state within the cap, the split succeeds, the kept prefix fits the
cap, and a non-trivial split fills it exactly. -/
theorem splitCalc_spec (m pre : Nat) (t : List α) (hpre : pre ≤ m) :
    ∃ tr split, splitCalc m pre t = some (tr, split) ∧ tr ++ split = t ∧
      pre + tr.length ≤ m ∧ (split ≠ [] → pre + tr.length = m) := by
  simp only [splitCalc]
  by_cases hov : (0 : Int) < (pre : Int) + (t.length : Int) - (m : Int)
  · have hsi : ¬ ((t.length : Int) - ((pre : Int) + (t.length : Int) - (m : Int)) < 0) := by
      omega
    rw [if_pos hov, if_neg hsi]
    have hn : ((t.length : Int) - ((pre : Int) + (t.length : Int) - (m : Int))).toNat
        = m - pre := by omega
    rw [hn]
    have hlen : (t.take (m - pre)).length = m - pre := by
      rw [List.length_take]
      omega
    exact ⟨_, _, rfl, List.take_append_drop _ _, by omega, fun _ => by omega⟩
  · rw [if_neg hov]
    exact ⟨t, [], rfl, List.append_nil t, by omega, fun h => absurd rfl h⟩

/-- Claim C1: starting from any buffer state within the cap, handleTrace
never reaches the panic (neither the explicit over-cap panic nor the
slice-bounds abort), and every completed call leaves the span count within
the cap again. -/
theorem handleTrace_cap_invariant (ser : List (List α) → Option (List Nat)) (maxSpans : Nat) :
    ∀ (fuel : Nat) (w : TWState α) (t : List α), w.spansInBuffer ≤ maxSpans →
      handleTrace ser maxSpans fuel w t ≠ .panicked ∧
      (∀ w1, handleTrace ser maxSpans fuel w t = .ok w1 → w1.spansInBuffer ≤ maxSpans) := by
  intro fuel
  induction fuel with
  | zero =>
    intro w t _
    exact ⟨fun h => HTResult.noConfusion h, fun w1 h => HTResult.noConfusion h⟩
  | succ fuel ih =>
    intro w t hpre
    simp only [handleTrace]
    by_cases ht : t.length = 0
    · rw [if_pos ht]
      exact ⟨fun h => HTResult.noConfusion h, fun w1 h => by injection h with h1; rw [← h1]; exact hpre⟩
    · rw [if_neg ht]
      obtain ⟨tr, split, hsc, happ, hle, hfill⟩ := splitCalc_spec maxSpans w.spansInBuffer t hpre
      rw [hsc]
      dsimp only
      by_cases heq : w.spansInBuffer + tr.length = maxSpans
      · rw [if_pos heq]
        have hflush : (flushTW ser
            { w with traces := w.traces ++ [tr],
                     spansInBuffer := w.spansInBuffer + tr.length }).spansInBuffer ≤ maxSpans := by
          refine le_trans (flushTW_spans_le ser _) ?_
          simpa using le_of_eq heq
        by_cases hsp : 0 < split.length
        · rw [if_pos hsp]
          exact ih _ split hflush
        · rw [if_neg hsp]
          exact ⟨fun h => HTResult.noConfusion h,
            fun w1 h => by injection h with h1; rw [← h1]; exact hflush⟩
      · rw [if_neg heq]
        have hgt : ¬ (w.spansInBuffer + tr.length > maxSpans) := by omega
        rw [if_neg hgt]
        by_cases hsp : 0 < split.length
        · rw [if_pos hsp]
          exact ih _ split (by simpa using hle)
        · rw [if_neg hsp]
          exact ⟨fun h => HTResult.noConfusion h,
            fun w1 h => by injection h with h1; rw [← h1]; simpa using hle⟩

/-- Witness for claim C1 at a concrete state: cap 3, two spans buffered,
ingesting a four-span trace completes with two spans buffered. -/
theorem handleTrace_cap_invariant_witness :
    (({ traces := [[10, 11]], spansInBuffer := 2, payloads := [],
        stats := zeroInfo } : TWState Nat).spansInBuffer ≤ 3) ∧
    handleTrace (fun _ => some []) 3 5
        { traces := [[10, 11]], spansInBuffer := 2, payloads := [], stats := zeroInfo }
        [1, 2, 3, 4] ≠ .panicked ∧
    (∀ w1, handleTrace (fun _ => some []) 3 5
        { traces := [[10, 11]], spansInBuffer := 2, payloads := [], stats := zeroInfo }
        [1, 2, 3, 4] = .ok w1 → w1.spansInBuffer ≤ 3) := by
  refine ⟨by decide, ?_⟩
  exact handleTrace_cap_invariant (fun _ => some []) 3 5
    { traces := [[10, 11]], spansInBuffer := 2, payloads := [], stats := zeroInfo }
    [1, 2, 3, 4] (by decide)

/-- Appending one trace to the buffer adds exactly its spans. -/
theorem bufferSpans_append (w : TWState α) (tr : List α) (k : Nat) :
    bufferSpans { w with traces := w.traces ++ [tr], spansInBuffer := k } =
      bufferSpans w + (tr : Multiset α) := by
  simp only [bufferSpans, List.flatten_append, List.flatten_cons, List.flatten_nil,
    List.append_nil]
  exact Multiset.coe_add _ _

/-- Flushing conserves spans: they move from the buffer to a payload, stay in
the buffer on a serialization failure, or the buffer was empty. -/
theorem flushTW_conserves (ser : List (List α) → Option (List Nat)) (w : TWState α) :
    payloadSpans (flushTW ser w) + bufferSpans (flushTW ser w) =
      payloadSpans w + bufferSpans w := by
  unfold flushTW
  split
  · rfl
  · split
    · rfl
    · simp [payloadSpans, bufferSpans, ← Multiset.coe_add]

/-- handleTrace conserves spans: every completed call distributes the input
trace's spans between the buffer and the emitted payloads. -/
theorem handleTrace_conserves (ser : List (List α) → Option (List Nat)) (maxSpans : Nat) :
    ∀ (fuel : Nat) (w : TWState α) (t : List α) (w1 : TWState α),
      handleTrace ser maxSpans fuel w t = .ok w1 →
      payloadSpans w1 + bufferSpans w1 = payloadSpans w + bufferSpans w + (t : Multiset α) := by
  intro fuel
  induction fuel with
  | zero => intro w t w1 h; exact HTResult.noConfusion h
  | succ fuel ih =>
    intro w t w1 h
    simp only [handleTrace] at h
    by_cases ht : t.length = 0
    · rw [if_pos ht] at h
      injection h with h1
      rw [← h1, List.length_eq_zero.mp ht]
      simp
    · rw [if_neg ht] at h
      cases hsc : splitCalc maxSpans w.spansInBuffer t with
      | none => rw [hsc] at h; exact HTResult.noConfusion h
      | some pr =>
        obtain ⟨tr, split⟩ := pr
        have happ : tr ++ split = t := splitCalc_append maxSpans w.spansInBuffer t tr split hsc
        rw [hsc] at h
        dsimp only at h
        by_cases heq : w.spansInBuffer + tr.length = maxSpans
        · rw [if_pos heq] at h
          by_cases hsp : 0 < split.length
          · rw [if_pos hsp] at h
            have hrec := ih _ split w1 h
            rw [hrec, flushTW_conserves, bufferSpans_append]
            have hpay : payloadSpans { w with traces := w.traces ++ [tr], spansInBuffer := w.spansInBuffer + tr.length } = payloadSpans w := rfl
            rw [hpay]
            have hts : (t : Multiset α) = (tr : Multiset α) + (split : Multiset α) := by
              rw [← happ]; exact Multiset.coe_add tr split
            rw [hts]
            module
          · rw [if_neg hsp] at h
            injection h with h1
            rw [← h1, flushTW_conserves, bufferSpans_append]
            have hsplit : split = [] := by
              cases split with
              | nil => rfl
              | cons a l => exact absurd (by simp) hsp
            rw [hsplit, List.append_nil] at happ
            rw [happ]
            have hpay2 : payloadSpans { w with traces := w.traces ++ [t], spansInBuffer := w.spansInBuffer + t.length } = payloadSpans w := rfl
            rw [hpay2]
            module
        · rw [if_neg heq] at h
          have hgt : w.spansInBuffer + tr.length > maxSpans ∨
              ¬ (w.spansInBuffer + tr.length > maxSpans) := em _
          rcases hgt with hgt | hgt
          · rw [if_pos hgt] at h; exact HTResult.noConfusion h
          · rw [if_neg hgt] at h
            by_cases hsp : 0 < split.length
            · rw [if_pos hsp] at h
              have hrec := ih _ split w1 h
              rw [hrec, bufferSpans_append]
              have hpay : payloadSpans { w with traces := w.traces ++ [tr], spansInBuffer := w.spansInBuffer + tr.length } = payloadSpans w := rfl
              rw [hpay]
              have hts : (t : Multiset α) = (tr : Multiset α) + (split : Multiset α) := by
                rw [← happ]; exact Multiset.coe_add tr split
              rw [hts]
              module
            · rw [if_neg hsp] at h
              injection h with h1
              rw [← h1, bufferSpans_append]
              have hsplit : split = [] := by
                cases split with
                | nil => rfl
                | cons a l => exact absurd (by simp) hsp
              rw [hsplit, List.append_nil] at happ
              rw [happ]
              have hpay2 : payloadSpans { w with traces := w.traces ++ [t], spansInBuffer := w.spansInBuffer + t.length } = payloadSpans w := rfl
              rw [hpay2]
              module

/-- Running a sequence of writer operations conserves spans. -/
theorem runOps_conserves (ser : List (List α) → Option (List Nat)) (maxSpans : Nat) :
    ∀ (ops : List (WriterOp α)) (w0 w1 : TWState α),
      runOps ser maxSpans ops w0 = some w1 →
      payloadSpans w1 + bufferSpans w1 =
        payloadSpans w0 + bufferSpans w0 + ingestedSpans ops := by
  intro ops
  induction ops with
  | nil =>
    intro w0 w1 h
    injection h with h1
    rw [h1]
    simp [ingestedSpans]
  | cons op ops ih =>
    intro w0 w1 h
    cases op with
    | ingest fuel t =>
      simp only [runOps] at h
      cases hht : handleTrace ser maxSpans fuel w0 t with
      | ok w2 =>
        rw [hht] at h
        have h2 := ih w2 w1 h
        have h3 := handleTrace_conserves ser maxSpans fuel w0 t w2 hht
        rw [h2, h3]
        have : ingestedSpans (WriterOp.ingest fuel t :: ops) =
            (t : Multiset α) + ingestedSpans ops := by
          simp only [ingestedSpans, List.map_cons, List.flatten_cons]
          exact Multiset.coe_add _ _
        rw [this]
        module
      | panicked => rw [hht] at h; exact Option.noConfusion h
      | outOfFuel => rw [hht] at h; exact Option.noConfusion h
    | tick =>
      simp only [runOps] at h
      have h2 := ih _ w1 h
      rw [h2, flushTW_conserves]
      have : ingestedSpans (WriterOp.tick :: ops) = ingestedSpans ops := by
        simp [ingestedSpans]
      rw [this]

/-- Claim C3: for every sequence of handleTrace and flush calls from writer
init, the multiset of spans across all payloads handed to the Sender plus
the multiset in the current buffer equals the multiset of spans ingested; no
span is duplicated or lost by buffering, splitting or flushing. -/
theorem span_conservation (ser : List (List α) → Option (List Nat)) (maxSpans : Nat)
    (ops : List (WriterOp α)) (w1 : TWState α)
    (h : runOps ser maxSpans ops (initTW α) = some w1) :
    payloadSpans w1 + bufferSpans w1 = ingestedSpans ops := by
  have h2 := runOps_conserves ser maxSpans ops (initTW α) w1 h
  rw [h2]
  simp [payloadSpans, bufferSpans, initTW]

/-- Witness for claim C3: cap 2, ingest [1,2,3] (split and partly flushed)
then [4], then a timed flush; payloads plus buffer hold exactly the five
ingested spans. -/
theorem span_conservation_witness :
    (∃ w1 : TWState Nat,
      runOps (fun _ => some []) 2 [.ingest 4 [1, 2, 3], .ingest 4 [4], .tick] (initTW Nat) =
        some w1) ∧
    ∀ w1 : TWState Nat,
      runOps (fun _ => some []) 2 [.ingest 4 [1, 2, 3], .ingest 4 [4], .tick] (initTW Nat) =
        some w1 →
      payloadSpans w1 + bufferSpans w1 =
        ingestedSpans [WriterOp.ingest 4 [1, 2, 3], WriterOp.ingest 4 [4], WriterOp.tick] := by
  constructor
  · exact ⟨{ traces := [], spansInBuffer := 0, payloads := [[[1, 2]], [[3], [4]]], stats := { Payloads := 0, Traces := 3, Spans := 4, Bytes := 0, Retries := 0, Errors := 0 } }, by decide⟩
  · intro w1 h
    exact span_conservation (fun _ => some []) 2
      [.ingest 4 [1, 2, 3], .ingest 4 [4], .tick] w1 h

/-- With the cap exceeded, the split keeps exactly the prefix that fills the
buffer to the cap and returns the rest. -/
theorem splitCalc_overflow (m pre : Nat) (t : List α) (hpre : pre ≤ m)
    (hov : m < pre + t.length) :
    splitCalc m pre t = some (t.take (m - pre), t.drop (m - pre)) := by
  simp only [splitCalc]
  have h1 : (0 : Int) < (pre : Int) + (t.length : Int) - (m : Int) := by omega
  have h2 : ¬ ((t.length : Int) - ((pre : Int) + (t.length : Int) - (m : Int)) < 0) := by omega
  rw [if_pos h1, if_neg h2]
  have hn : ((t.length : Int) - ((pre : Int) + (t.length : Int) - (m : Int))).toNat
      = m - pre := by omega
  rw [hn]

/-- With no overflow, the whole trace is kept and the split is empty. -/
theorem splitCalc_no_overflow (m pre : Nat) (t : List α) (hle : pre + t.length ≤ m) :
    splitCalc m pre t = some (t, []) := by
  simp only [splitCalc]
  have h1 : ¬ ((0 : Int) < (pre : Int) + (t.length : Int) - (m : Int)) := by omega
  rw [if_neg h1]

/-- chunksAux of the empty trace is empty, whatever the fuel. -/
theorem chunksAux_nil (m : Nat) : ∀ fuel : Nat, chunksAux (α := α) m fuel [] = [] := by
  intro fuel
  cases fuel <;> simp [chunksAux]

/-- chunksAux of a non-empty trace is non-empty. -/
theorem chunksAux_ne_nil (m : Nat) : ∀ (fuel : Nat) (l : List α), l ≠ [] →
    chunksAux m fuel l ≠ [] := by
  intro fuel l hl
  have hlen : ¬ (l.length = 0) := by simpa using hl
  cases fuel with
  | zero => simp [chunksAux, hlen]
  | succ fuel =>
    simp only [chunksAux, hlen, if_false]
    split
    · simp
    · simp

/-- The chunks reassemble the trace, whatever the fuel. -/
theorem chunksAux_flatten (m : Nat) : ∀ (fuel : Nat) (l : List α),
    (chunksAux m fuel l).flatten = l := by
  intro fuel
  induction fuel with
  | zero =>
    intro l
    by_cases hl : l.length = 0
    · simp [chunksAux, hl, List.length_eq_zero.mp hl]
    · simp [chunksAux, hl]
  | succ fuel ih =>
    intro l
    by_cases hl : l.length = 0
    · simp [chunksAux, hl, List.length_eq_zero.mp hl]
    · simp only [chunksAux, hl, if_false]
      by_cases hlen : l.length ≤ m
      · simp [hlen]
      · rw [if_neg hlen]
        simp only [List.flatten_cons, ih]
        exact List.take_append_drop m l

/-- The fuel does not matter once it covers the trace length (cap at least
1). -/
theorem chunksAux_fuel_eq (m : Nat) (hm : 1 ≤ m) : ∀ (f1 f2 : Nat) (l : List α),
    l.length ≤ f1 → l.length ≤ f2 → chunksAux m f1 l = chunksAux m f2 l := by
  intro f1
  induction f1 with
  | zero =>
    intro f2 l h1 _
    have hl : l = [] := List.length_eq_zero.mp (Nat.le_zero.mp h1)
    rw [hl, chunksAux_nil, chunksAux_nil]
  | succ f1 ih =>
    intro f2 l h1 h2
    by_cases hl : l.length = 0
    · rw [List.length_eq_zero.mp hl, chunksAux_nil, chunksAux_nil]
    · cases f2 with
      | zero => omega
      | succ f2 =>
        simp only [chunksAux, hl, if_false]
        by_cases hlen : l.length ≤ m
        · rw [if_pos hlen, if_pos hlen]
        · rw [if_neg hlen, if_neg hlen]
          have hd1 : (l.drop m).length ≤ f1 := by
            rw [List.length_drop]; omega
          have hd2 : (l.drop m).length ≤ f2 := by
            rw [List.length_drop]; omega
          rw [ih f2 (l.drop m) hd1 hd2]

/-- Shape of the chunks: all chunks are non-empty and within the cap, and
all but the last have exactly the cap's size. -/
theorem chunksAux_shape (m : Nat) (hm : 1 ≤ m) : ∀ (fuel : Nat) (l : List α),
    l.length ≤ fuel →
    (∀ c ∈ (chunksAux m fuel l).dropLast, c.length = m) ∧
    (∀ c ∈ chunksAux m fuel l, c.length ≤ m ∧ c ≠ []) := by
  intro fuel
  induction fuel with
  | zero =>
    intro l h1
    rw [List.length_eq_zero.mp (Nat.le_zero.mp h1), chunksAux_nil]
    exact ⟨fun c hc => absurd hc (List.not_mem_nil c), fun c hc => absurd hc (List.not_mem_nil c)⟩
  | succ fuel ih =>
    intro l h1
    by_cases hl : l.length = 0
    · rw [List.length_eq_zero.mp hl, chunksAux_nil]
      exact ⟨fun c hc => absurd hc (List.not_mem_nil c),
        fun c hc => absurd hc (List.not_mem_nil c)⟩
    · simp only [chunksAux, hl, if_false]
      by_cases hlen : l.length ≤ m
      · rw [if_pos hlen]
        refine ⟨fun c hc => absurd hc (List.not_mem_nil c), fun c hc => ?_⟩
        rw [List.mem_singleton.mp hc]
        exact ⟨hlen, by intro he; rw [he] at hl; exact hl rfl⟩
      · rw [if_neg hlen]
        have hdne : l.drop m ≠ [] := by
          intro hd
          have := congrArg List.length hd
          rw [List.length_drop] at this
          simp at this
          omega
        have hrne : chunksAux m fuel (l.drop m) ≠ [] := chunksAux_ne_nil m fuel _ hdne
        have hdlen : (l.drop m).length ≤ fuel := by
          rw [List.length_drop]; omega
        obtain ⟨ih1, ih2⟩ := ih (l.drop m) hdlen
        have htake : (l.take m).length = m := by
          rw [List.length_take]; omega
        constructor
        · intro c hc
          rw [List.dropLast_cons_of_ne_nil hrne] at hc
          rcases List.mem_cons.mp hc with rfl | hc2
          · exact htake
          · exact ih1 c hc2
        · intro c hc
          rcases List.mem_cons.mp hc with rfl | hc2
          · refine ⟨le_of_eq htake, ?_⟩
            intro hce
            rw [hce] at htake
            simp at htake
            omega
          · exact ih2 c hc2

/-- Unfolding chunksOf for a trace longer than the cap. -/
theorem chunksOf_step (m : Nat) (hm : 1 ≤ m) (l : List α) (hlen : m < l.length) :
    chunksOf m l = l.take m :: chunksOf m (l.drop m) := by
  have hl : ¬ (l.length = 0) := by omega
  have hle : ¬ (l.length ≤ m) := by omega
  obtain ⟨f, hf⟩ : ∃ f, l.length = f + 1 := ⟨l.length - 1, by omega⟩
  unfold chunksOf
  rw [hf]
  simp only [chunksAux]
  rw [if_neg hl, if_neg hle]
  congr 1
  exact chunksAux_fuel_eq m hm f (l.drop m).length (l.drop m)
    (by rw [List.length_drop]; omega) (le_refl _)

/-- Unfolding chunksOf for a non-empty trace within the cap. -/
theorem chunksOf_small (m : Nat) (l : List α) (hne : l ≠ []) (hlen : l.length ≤ m) :
    chunksOf m l = [l] := by
  have hl : ¬ (l.length = 0) := by simpa using hne
  obtain ⟨f, hf⟩ : ∃ f, l.length = f + 1 := ⟨l.length - 1, by omega⟩
  unfold chunksOf
  rw [hf]
  simp only [chunksAux]
  rw [if_neg hl, if_pos hlen]

/-- Flushing an empty buffer is a no-op. -/
theorem flushTW_empty (ser : List (List α) → Option (List Nat)) (w : TWState α)
    (h : w.traces = []) : flushTW ser w = w := by
  simp [flushTW, h]

/-- With a serializer that always succeeds, flushing a non-empty buffer hands
its traces to the sender and resets the buffer. -/
theorem flushTW_success (ser : List (List α) → Option (List Nat)) (w : TWState α)
    (hne : w.traces ≠ []) (hser : ∀ ts, (ser ts).isSome = true) :
    (flushTW ser w).payloads = w.payloads ++ [w.traces] ∧
    (flushTW ser w).traces = [] ∧ (flushTW ser w).spansInBuffer = 0 := by
  obtain ⟨bytes, hb⟩ := Option.isSome_iff_exists.mp (hser w.traces)
  simp [flushTW, List.length_eq_zero, hne, hb]

/-- From an empty buffer, ingesting a trace and then flushing hands the
sender exactly the cap-sized chunks of the trace, in order, one chunk per
payload. -/
theorem handleTrace_from_empty (ser : List (List α) → Option (List Nat))
    (hser : ∀ ts, (ser ts).isSome = true) (maxSpans : Nat) (hm : 1 ≤ maxSpans) :
    ∀ (fuel : Nat) (t : List α) (w : TWState α), w.traces = [] → w.spansInBuffer = 0 →
      t ≠ [] → t.length ≤ fuel →
      ∃ w1, handleTrace ser maxSpans fuel w t = .ok w1 ∧
        (flushTW ser w1).payloads = w.payloads ++ (chunksOf maxSpans t).map (fun c => [c]) ∧
        (flushTW ser w1).traces = [] ∧
        (flushTW ser w1).spansInBuffer = 0 := by
  intro fuel
  induction fuel with
  | zero =>
    intro t w _ _ hne hf
    exact absurd (List.length_eq_zero.mp (Nat.le_zero.mp hf)) hne
  | succ fuel ih =>
    intro t w hw1 hw2 hne hf
    have htne : ¬ (t.length = 0) := by simpa using hne
    simp only [handleTrace]
    rw [if_neg htne, hw2]
    by_cases hlen : t.length ≤ maxSpans
    · rw [splitCalc_no_overflow maxSpans 0 t (by omega)]
      dsimp only
      obtain ⟨hs1, hs2, hs3⟩ := flushTW_success ser
        { w with traces := w.traces ++ [t], spansInBuffer := 0 + t.length }
        (by simp) hser
      by_cases heq : 0 + t.length = maxSpans
      · rw [if_pos heq]
        rw [if_neg (by simp : ¬ (([] : List α).length > 0))]
        refine ⟨_, rfl, ?_, ?_, ?_⟩
        · rw [flushTW_empty ser _ hs2, hs1, hw1, chunksOf_small maxSpans t hne hlen]
          simp
        · rw [flushTW_empty ser _ hs2, hs2]
        · rw [flushTW_empty ser _ hs2, hs3]
      · rw [if_neg heq]
        rw [if_neg (by omega : ¬ (0 + t.length > maxSpans))]
        rw [if_neg (by simp : ¬ (([] : List α).length > 0))]
        refine ⟨_, rfl, ?_, hs2, hs3⟩
        rw [hs1, hw1, chunksOf_small maxSpans t hne hlen]
        simp
    · rw [splitCalc_overflow maxSpans 0 t (by omega) (by omega)]
      rw [Nat.sub_zero]
      dsimp only
      have htl : (t.take maxSpans).length = maxSpans := by
        rw [List.length_take]; omega
      rw [htl]
      rw [if_pos (by omega : 0 + maxSpans = maxSpans)]
      rw [if_pos (by rw [List.length_drop]; omega : (t.drop maxSpans).length > 0)]
      obtain ⟨hs1, hs2, hs3⟩ := flushTW_success ser
        { w with traces := w.traces ++ [t.take maxSpans], spansInBuffer := 0 + maxSpans }
        (by simp) hser
      have hdne : t.drop maxSpans ≠ [] := by
        intro hd
        have := congrArg List.length hd
        rw [List.length_drop] at this
        simp at this
        omega
      have hdfuel : (t.drop maxSpans).length ≤ fuel := by
        rw [List.length_drop]; omega
      obtain ⟨w1, hrun, hpay, htr, hsp⟩ := ih (t.drop maxSpans)
        (flushTW ser { w with traces := w.traces ++ [t.take maxSpans], spansInBuffer := 0 + maxSpans })
        hs2 hs3 hdne hdfuel
      refine ⟨w1, hrun, ?_, htr, hsp⟩
      rw [hpay, hs1, hw1, chunksOf_step maxSpans hm t (by omega)]
      simp

/-- Claim C2: with the cap exceeded, handleTrace appends exactly the prefix
`trace[0 .. len(trace)-overflow)` to the buffer — filling it exactly to
MaxSpansPerPayload, which triggers an immediate flush — and recursively
ingests the suffix as a fresh trace; consequently, ingesting a single trace
into an empty buffer (with a succeeding serializer) and flushing yields
successive payloads that are exactly the cap-sized chunks of the trace: each
chunk is at the cap except possibly the last, order is preserved, and their
concatenation is the original trace. -/
theorem handleTrace_split_spec (maxSpans : Nat) (hm : 1 ≤ maxSpans) :
    (∀ (ser : List (List α) → Option (List Nat)) (fuel : Nat) (w : TWState α) (t : List α),
      w.spansInBuffer ≤ maxSpans → maxSpans < w.spansInBuffer + t.length →
      handleTrace ser maxSpans (fuel + 1) w t =
        handleTrace ser maxSpans fuel
          (flushTW ser { w with traces := w.traces ++ [t.take (maxSpans - w.spansInBuffer)], spansInBuffer := maxSpans })
          (t.drop (maxSpans - w.spansInBuffer))) ∧
    (∀ (ser : List (List α) → Option (List Nat)), (∀ ts, (ser ts).isSome = true) →
      ∀ (w : TWState α) (t : List α), w.traces = [] → w.spansInBuffer = 0 → t ≠ [] →
      ∃ w1, handleTrace ser maxSpans (t.length + 1) w t = .ok w1 ∧
        (flushTW ser w1).payloads = w.payloads ++ (chunksOf maxSpans t).map (fun c => [c]) ∧
        (flushTW ser w1).traces = []) ∧
    (∀ t : List α, (chunksOf maxSpans t).flatten = t ∧
      (∀ c ∈ (chunksOf maxSpans t).dropLast, c.length = maxSpans) ∧
      (∀ c ∈ chunksOf maxSpans t, c.length ≤ maxSpans ∧ c ≠ [])) := by
  refine ⟨?_, ?_, ?_⟩
  · intro ser fuel w t hpre hov
    have htne : ¬ (t.length = 0) := by omega
    conv_lhs => rw [handleTrace]
    rw [if_neg htne, splitCalc_overflow maxSpans w.spansInBuffer t hpre hov]
    dsimp only
    have htl : (t.take (maxSpans - w.spansInBuffer)).length = maxSpans - w.spansInBuffer := by
      rw [List.length_take]; omega
    rw [htl]
    have hsum : w.spansInBuffer + (maxSpans - w.spansInBuffer) = maxSpans := by omega
    rw [hsum]
    rw [if_pos (rfl : maxSpans = maxSpans)]
    rw [if_pos (by rw [List.length_drop]; omega : (t.drop (maxSpans - w.spansInBuffer)).length > 0)]
  · intro ser hser w t hw1 hw2 hne
    obtain ⟨w1, hrun, hpay, htr, _⟩ := handleTrace_from_empty ser hser maxSpans hm
      (t.length + 1) t w hw1 hw2 hne (by omega)
    exact ⟨w1, hrun, hpay, htr⟩
  · intro t
    refine ⟨chunksAux_flatten maxSpans t.length t, ?_, ?_⟩
    · exact (chunksAux_shape maxSpans hm t.length t (le_refl _)).1
    · exact (chunksAux_shape maxSpans hm t.length t (le_refl _)).2

/-- Witness for claim C2 with cap 2: the overflow step on a concrete
partially-filled buffer, the chunked payloads of the five-span trace
[1,2,3,4,5] ingested into an empty buffer, and the shape of its chunks. -/
theorem handleTrace_split_spec_witness :
    handleTrace (fun _ => some []) 2 4
        { traces := [[9]], spansInBuffer := 1, payloads := [], stats := zeroInfo }
        [1, 2, 3] =
      handleTrace (fun _ => some []) 2 3
        (flushTW (fun _ => some [])
          { traces := [[9], [1]], spansInBuffer := 2, payloads := [], stats := zeroInfo })
        [2, 3] ∧
    (∃ w1, handleTrace (fun _ => some []) 2 6 (initTW Nat) [1, 2, 3, 4, 5] = .ok w1 ∧
      (flushTW (fun _ => some []) w1).payloads =
        [] ++ (chunksOf 2 [1, 2, 3, 4, 5]).map (fun c => [c]) ∧
      (flushTW (fun _ => some []) w1).traces = []) ∧
    (chunksOf 2 ([1, 2, 3, 4, 5] : List Nat)).flatten = [1, 2, 3, 4, 5] ∧
    (∀ c ∈ (chunksOf 2 ([1, 2, 3, 4, 5] : List Nat)).dropLast, c.length = 2) ∧
    (∀ c ∈ chunksOf 2 ([1, 2, 3, 4, 5] : List Nat), c.length ≤ 2 ∧ c ≠ []) := by
  have h := handleTrace_split_spec (α := Nat) 2 (by decide)
  refine ⟨?_, ?_, ?_, ?_, ?_⟩
  · exact h.1 (fun _ => some []) 3
      { traces := [[9]], spansInBuffer := 1, payloads := [], stats := zeroInfo }
      [1, 2, 3] (by decide) (by decide)
  · exact h.2.1 (fun _ => some []) (fun _ => rfl) (initTW Nat) [1, 2, 3, 4, 5]
      rfl rfl (by decide)
  · exact (h.2.2 [1, 2, 3, 4, 5]).1
  · exact (h.2.2 [1, 2, 3, 4, 5]).2.1
  · exact (h.2.2 [1, 2, 3, 4, 5]).2.2

end TraceAgent
